import Mathlib

/-!
Verification of the `tubes` topic-routed messaging layer (`src/tube/manager.py`)
against its natural-language specification.

The development shallowly embeds the pieces of `Manager` that the claims talk
about: payload coercion (`Manager.__format_payload`), envelope frame
construction (`Manager.send`), frame decoding (`Manager.__process_event`),
topic resolution (`Manager.get_socket_by_topic`), the response cache
(`cachetools.TTLCache(maxsize=128, ttl=60)`), the request/response wait loop
(`Manager.request`), the dispatch loop (`Manager.loop`) and teardown
(`Manager.close`).

Byte strings are embedded as `List Nat` (one entry per byte).  Python's
`str.encode('utf-8')` / `bytes.decode('utf-8')` are embedded as a concrete
UTF-8 encoder and a strict UTF-8 decoder over code points.
-/

set_option autoImplicit false

namespace Tubes

/-- A frame of a multipart message: one byte string, one `Nat` per byte. -/
abbrev Frame := List Nat

/-- A multipart message as delivered by the transport: a list of frames. -/
abbrev Message := List Frame

/-- UTF-8 encoding of one Unicode code point, as produced by Python's
`str.encode('utf-8')` (and by any standard UTF-8 encoder). -/
def utf8EncodeCp (n : Nat) : List Nat :=
  if n < 0x80 then [n]
  else if n < 0x800 then [0xC0 + n / 0x40, 0x80 + n % 0x40]
  else if n < 0x10000 then
    [0xE0 + n / 0x1000, 0x80 + n / 0x40 % 0x40, 0x80 + n % 0x40]
  else
    [0xF0 + n / 0x40000, 0x80 + n / 0x1000 % 0x40, 0x80 + n / 0x40 % 0x40,
     0x80 + n % 0x40]

/-- UTF-8 encoding of a list of code points. -/
def utf8EncodeCps : List Nat → List Nat
  | [] => []
  | n :: ns => utf8EncodeCp n ++ utf8EncodeCps ns

/-- Python `s.encode('utf-8')`: the UTF-8 bytes of a string. -/
def utf8Encode (s : String) : List Nat :=
  utf8EncodeCps (s.data.map Char.toNat)

/-- Decode one UTF-8-encoded code point from the front of a byte list,
returning the code point and the remaining bytes.  Strict, as Python's
`bytes.decode('utf-8')`: stray continuation bytes, overlong encodings,
surrogates and values above `0x10FFFF` are rejected. -/
def utf8DecodeOne : List Nat → Option (Nat × List Nat)
  | [] => none
  | b :: bs =>
    if b < 0x80 then some (b, bs)
    else if b < 0xC2 then none
    else if b < 0xE0 then
      match bs with
      | b1 :: rest =>
        if 0x80 ≤ b1 ∧ b1 < 0xC0 then
          some ((b - 0xC0) * 0x40 + (b1 - 0x80), rest)
        else none
      | _ => none
    else if b < 0xF0 then
      match bs with
      | b1 :: b2 :: rest =>
        if (0x80 ≤ b1 ∧ b1 < 0xC0) ∧ (0x80 ≤ b2 ∧ b2 < 0xC0) then
          let n := (b - 0xE0) * 0x1000 + (b1 - 0x80) * 0x40 + (b2 - 0x80)
          if 0x800 ≤ n ∧ ¬(0xD800 ≤ n ∧ n < 0xE000) then some (n, rest) else none
        else none
      | _ => none
    else if b < 0xF5 then
      match bs with
      | b1 :: b2 :: b3 :: rest =>
        if (0x80 ≤ b1 ∧ b1 < 0xC0) ∧ (0x80 ≤ b2 ∧ b2 < 0xC0) ∧
            (0x80 ≤ b3 ∧ b3 < 0xC0) then
          let n := (b - 0xF0) * 0x40000 + (b1 - 0x80) * 0x1000 +
            (b2 - 0x80) * 0x40 + (b3 - 0x80)
          if 0x10000 ≤ n ∧ n < 0x110000 then some (n, rest) else none
        else none
      | _ => none
    else none

/-- Decode a whole byte list into code points; fuel-driven (the fuel is the
byte count, which always suffices since every code point consumes at least
one byte). -/
def utf8DecodeCps : Nat → List Nat → Option (List Nat)
  | _, [] => some []
  | 0, _ :: _ => none
  | fuel + 1, b :: bs =>
    match utf8DecodeOne (b :: bs) with
    | none => none
    | some (n, rest) => (utf8DecodeCps fuel rest).map (n :: ·)

/-- Python `bs.decode('utf-8')`: strict UTF-8 decoding of a byte string. -/
def utf8Decode (bs : List Nat) : Option String :=
  (utf8DecodeCps bs.length bs).map (fun cps => String.mk (cps.map Char.ofNat))

theorem utf8EncodeCp_ne_nil (n : Nat) : utf8EncodeCp n ≠ [] := by
  unfold utf8EncodeCp
  split
  · simp
  · split
    · simp
    · split <;> simp

theorem utf8DecodeOne_encode (n : Nat) (h : n.isValidChar) (rest : List Nat) :
    utf8DecodeOne (utf8EncodeCp n ++ rest) = some (n, rest) := by
  have hlt : n < 0x110000 := by
    rcases h with h | ⟨_, h⟩ <;> omega
  unfold utf8EncodeCp
  by_cases h1 : n < 0x80
  · rw [if_pos h1]
    unfold utf8DecodeOne
    simp only [List.cons_append, List.nil_append]
    rw [if_pos h1]
  · rw [if_neg h1]
    by_cases h2 : n < 0x800
    · rw [if_pos h2]
      unfold utf8DecodeOne
      simp only [List.cons_append, List.nil_append]
      rw [if_neg (by omega), if_neg (by omega), if_pos (by omega),
        if_pos (by constructor <;> omega)]
      have hv : (0xC0 + n / 0x40 - 0xC0) * 0x40 + (0x80 + n % 0x40 - 0x80) = n := by
        omega
      rw [hv]
    · rw [if_neg h2]
      by_cases h3 : n < 0x10000
      · rw [if_pos h3]
        unfold utf8DecodeOne
        simp only [List.cons_append, List.nil_append]
        rw [if_neg (by omega), if_neg (by omega), if_neg (by omega),
          if_pos (by omega),
          if_pos (by refine ⟨⟨?_, ?_⟩, ?_, ?_⟩ <;> omega)]
        have hv : (0xE0 + n / 0x1000 - 0xE0) * 0x1000 +
            (0x80 + n / 0x40 % 0x40 - 0x80) * 0x40 + (0x80 + n % 0x40 - 0x80)
            = n := by omega
        rw [hv]
        have hsur : ¬(0xD800 ≤ n ∧ n < 0xE000) := by
          rcases h with h | ⟨h, _⟩ <;> omega
        rw [if_pos ⟨by omega, hsur⟩]
      · rw [if_neg h3]
        unfold utf8DecodeOne
        simp only [List.cons_append, List.nil_append]
        rw [if_neg (by omega), if_neg (by omega), if_neg (by omega),
          if_neg (by omega), if_pos (by omega),
          if_pos (by refine ⟨⟨?_, ?_⟩, ⟨?_, ?_⟩, ?_, ?_⟩ <;> omega)]
        have hv : (0xF0 + n / 0x40000 - 0xF0) * 0x40000 +
            (0x80 + n / 0x1000 % 0x40 - 0x80) * 0x1000 +
            (0x80 + n / 0x40 % 0x40 - 0x80) * 0x40 + (0x80 + n % 0x40 - 0x80)
            = n := by omega
        rw [hv]
        rw [if_pos ⟨by omega, hlt⟩]

theorem length_le_length_utf8EncodeCps (cps : List Nat) :
    cps.length ≤ (utf8EncodeCps cps).length := by
  induction cps with
  | nil => simp [utf8EncodeCps]
  | cons n ns ih =>
    have hne := utf8EncodeCp_ne_nil n
    have : 1 ≤ (utf8EncodeCp n).length := by
      cases hcp : utf8EncodeCp n with
      | nil => exact absurd hcp hne
      | cons _ _ => simp
    simp only [utf8EncodeCps, List.length_cons, List.length_append]
    omega

theorem utf8DecodeCps_encode (cps : List Nat)
    (h : ∀ n ∈ cps, n.isValidChar) :
    ∀ fuel, cps.length ≤ fuel →
      utf8DecodeCps fuel (utf8EncodeCps cps) = some cps := by
  induction cps with
  | nil => intro fuel _; cases fuel <;> rfl
  | cons n ns ih =>
    intro fuel hf
    have hval : n.isValidChar := h n (by simp)
    obtain ⟨b, bs, hcp⟩ : ∃ b bs, utf8EncodeCp n = b :: bs := by
      cases hcp : utf8EncodeCp n with
      | nil => exact absurd hcp (utf8EncodeCp_ne_nil n)
      | cons b bs => exact ⟨b, bs, rfl⟩
    obtain ⟨f, rfl⟩ : ∃ f, fuel = f + 1 := by
      cases fuel with
      | zero => simp at hf
      | succ f => exact ⟨f, rfl⟩
    have henc : utf8EncodeCps (n :: ns) = b :: (bs ++ utf8EncodeCps ns) := by
      simp [utf8EncodeCps, hcp]
    rw [henc]
    have hone : utf8DecodeOne (b :: (bs ++ utf8EncodeCps ns))
        = some (n, utf8EncodeCps ns) := by
      have := utf8DecodeOne_encode n hval (utf8EncodeCps ns)
      rwa [hcp, List.cons_append] at this
    unfold utf8DecodeCps
    rw [hone]
    show (utf8DecodeCps f (utf8EncodeCps ns)).map (n :: ·) = some (n :: ns)
    rw [ih (fun m hm => h m (by simp [hm])) f (by simpa using hf)]
    rfl

/-- Round-trip of the byte-level codec: strict UTF-8 decoding inverts UTF-8
encoding on every string. -/
theorem utf8Decode_utf8Encode (s : String) : utf8Decode (utf8Encode s) = some s := by
  have hval : ∀ n ∈ s.data.map Char.toNat, n.isValidChar := by
    intro n hn
    rcases List.mem_map.mp hn with ⟨c, _, rfl⟩
    exact c.valid
  have hfuel : (s.data.map Char.toNat).length ≤ (utf8Encode s).length := by
    simpa [utf8Encode] using length_le_length_utf8EncodeCps (s.data.map Char.toNat)
  unfold utf8Decode utf8Encode
  rw [utf8DecodeCps_encode (s.data.map Char.toNat) hval _
    (by simpa [utf8Encode] using hfuel)]
  show some (String.mk ((s.data.map Char.toNat).map Char.ofNat)) = some s
  rw [List.map_map]
  have hid : (Char.ofNat ∘ Char.toNat) = id := funext Char.ofNat_toNat
  rw [hid, List.map_id]

/-- Decimal digits, fuel-driven so that the definition reduces inside the
kernel; the fuel only needs to be at least the digit count. -/
def natDigitsAux : Nat → Nat → List Nat
  | 0, n => [n]
  | fuel + 1, n => if n < 10 then [n] else natDigitsAux fuel (n / 10) ++ [n % 10]

/-- Decimal digits of a natural number, most significant first, exactly the
digit sequence Python's `str(int)` prints for a non-negative value. -/
def natDigits (n : Nat) : List Nat := natDigitsAux n n

/-- Render one decimal digit as its ASCII character. -/
def digitChar (d : Nat) : Char := Char.ofNat (48 + d)

/-- Python `str(n)` for a non-negative integer. -/
def pyNatStr (n : Nat) : String := String.mk ((natDigits n).map digitChar)

/-- Python `str(n)` for an integer: decimal digits, `-`-prefixed when
negative. -/
def pyIntStr : Int → String
  | Int.ofNat n => pyNatStr n
  | Int.negSucc n => "-" ++ pyNatStr (n + 1)

theorem natDigitsAux_lt_ten (fuel : Nat) :
    ∀ n, n ≤ fuel → ∀ d ∈ natDigitsAux fuel n, d < 10 := by
  induction fuel with
  | zero => intro n hn d hd; simp [natDigitsAux] at hd; omega
  | succ f ih =>
    intro n hn d hd
    rw [natDigitsAux] at hd
    split at hd
    · simp at hd; omega
    · rcases List.mem_append.mp hd with h | h
      · exact ih (n / 10) (by omega) d h
      · simp at h; omega

theorem natDigits_lt_ten (n : Nat) : ∀ d ∈ natDigits n, d < 10 :=
  natDigitsAux_lt_ten n n (Nat.le_refl n)

theorem natDigitsAux_foldl (fuel : Nat) :
    ∀ n, n ≤ fuel → ∀ a : Nat,
      (natDigitsAux fuel n).foldl (fun a d => a * 10 + d) a
        = a * 10 ^ (natDigitsAux fuel n).length + n := by
  induction fuel with
  | zero =>
    intro n hn a
    simp [natDigitsAux]
  | succ f ih =>
    intro n hn a
    rw [natDigitsAux]
    split
    · simp
    · rw [List.foldl_append, ih (n / 10) (by omega) a]
      simp only [List.foldl_cons, List.foldl_nil, List.length_append,
        List.length_cons, List.length_nil]
      rw [Nat.pow_succ]
      have : 10 * (n / 10) + n % 10 = n := Nat.div_add_mod n 10
      ring_nf
      omega

/-- The digit list of `n` reads back (most significant first) to `n`: it is
the decimal rendering of `n`. -/
theorem natDigits_foldl (n : Nat) :
    (natDigits n).foldl (fun a d => a * 10 + d) 0 = n := by
  simpa using natDigitsAux_foldl n n (Nat.le_refl n) 0

instance {ε α : Type} [DecidableEq ε] [DecidableEq α] : DecidableEq (Except ε α) :=
  fun x y =>
    match x, y with
    | .ok a, .ok b =>
      if h : a = b then .isTrue (by rw [h]) else .isFalse (by simp [h])
    | .error a, .error b =>
      if h : a = b then .isTrue (by rw [h]) else .isFalse (by simp [h])
    | .ok _, .error _ => .isFalse (by simp)
    | .error _, .ok _ => .isFalse (by simp)

/-- Exceptions raised by the code under `src/tube/manager.py`:
`TubeException`, `TubeTopicNotConfigured`, `TubeMessageError`,
`TubeMessageTimeout`, plus the Python built-ins `TypeError` (bad payload
type, `await`ing a non-awaitable, calling `None`) and `UnicodeDecodeError`
(strict UTF-8 decoding failure). -/
inductive TubeError where
  | tubeException
  | tubeTopicNotConfigured
  | tubeMessageError
  | tubeMessageTimeout
  | typeError
  | unicodeDecodeError
deriving DecidableEq, Repr

/-- The ZMQ socket patterns of `ZMQ_SOCKET_TYPE_MAPPING`. -/
inductive SocketType where
  | SUB | PUB | REQ | REP | ROUTER | DEALER | PAIR
deriving DecidableEq, Repr

/-- A transport endpoint, reduced to what `Manager` reads from it: the
diagnostic `name` stashed in `socket.__dict__` and the ZMQ socket type
returned by `socket.getsockopt(zmq.TYPE)`.  Address, bind/connect role and
the raw ZMQ handle live in the out-of-scope transport layer. -/
structure Socket where
  name : String
  socket_type : SocketType
deriving DecidableEq, Repr

/-- A Python value passed as `payload`.  The embedding keeps exactly the
type distinctions `Manager.__format_payload` dispatches on: `str`,
`bytes`/`bytearray` (both pass through unchanged, so one constructor),
`int`, `float`, `bool` (a subclass of `int` in Python, so it is caught by
`isinstance(payload, (int, float))` and rendered by `str` as
`True`/`False`), `None`, and any other object.  A `float` is carried as the
text `str(float)` renders it to, since the code only ever applies `str` to
it. -/
inductive Payload where
  | str (s : String)
  | bytes (b : List Nat)
  | intP (n : Int)
  | floatP (pyRepr : String)
  | boolP (b : Bool)
  | none
  | other
deriving DecidableEq, Repr

/-- Embedding of `Manager.__format_payload` (manager.py lines 104-116):
coerce a payload to the byte string that is put on the wire, or raise
`TypeError`.  Branch order follows the `isinstance` chain of the source;
`boolP` lands in the `(int, float)` branch because Python's `bool` is an
`int`. -/
def format_payload : Payload → Except TubeError (List Nat)
  | .str s => .ok (utf8Encode s)
  | .bytes b => .ok b
  | .intP n => .ok (utf8Encode (pyIntStr n))
  | .floatP r => .ok (utf8Encode r)
  | .boolP b => .ok (utf8Encode (if b then "True" else "False"))
  | .none => .ok []
  | .other => .error .typeError

/-- Modelled from the spec: `tube/matcher.py` (the `MQTTMatcher` imported by
`manager.py`) is code of this repository that is not under `src/`.  Spec
section 4.1 describes it as a store of values keyed by topic pattern where a
later registration under an identical pattern replaces the stored value; it
is embedded as an association list from pattern to value, one entry per
registered pattern.  `matcher[pattern] = value` is `insert`, dict-style
`values()` is `values`, and `iter_match(topic)` yields the stored values of
the patterns matching the topic (the spec's most-specific-first order among
several matches is irrelevant to every theorem below; matches are produced
in registration order). -/
structure MQTTMatcher (α : Type) where
  entries : List (String × α)

/-- Modelled from the spec: pattern matching of an MQTT-style topic pattern
against a concrete topic, segment by segment — `+` matches exactly one
segment, a trailing `#` matches zero or more trailing segments (spec
section 3, "Topic Pattern"). -/
def segmentsMatch : List String → List String → Bool
  | [], [] => true
  | ["#"], _ => true
  | p :: ps, s :: ss => (p == "+" || p == s) && segmentsMatch ps ss
  | _, _ => false

/-- Split a character list into `/`-separated segments, accumulating the
current segment in reverse. -/
def splitSegsAux : List Char → List Char → List String
  | [], acc => [String.mk acc.reverse]
  | c :: cs, acc =>
    if c = '/' then String.mk acc.reverse :: splitSegsAux cs []
    else splitSegsAux cs (c :: acc)

/-- Split a topic string into its `/`-separated segments. -/
def topicSegments (topic : String) : List String := splitSegsAux topic.data []

/-- Modelled from the spec: does a registered pattern match a concrete
topic. -/
def patternMatches (pattern topic : String) : Bool :=
  segmentsMatch (topicSegments pattern) (topicSegments topic)

/-- Modelled from the spec: `matcher[pattern] = value` — replace the value
stored under an identical pattern, otherwise add a new entry. -/
def MQTTMatcher.insert {α : Type} (mt : MQTTMatcher α) (p : String) (v : α) :
    MQTTMatcher α :=
  if mt.entries.any (fun e => e.1 = p) then
    ⟨mt.entries.map (fun e => if e.1 = p then (p, v) else e)⟩
  else ⟨mt.entries ++ [(p, v)]⟩

/-- Modelled from the spec: dict-style `values()` — the stored value of
every registered pattern, one occurrence per pattern. -/
def MQTTMatcher.values {α : Type} (mt : MQTTMatcher α) : List α :=
  mt.entries.map (fun e => e.2)

/-- Modelled from the spec: `iter_match(topic)` — the stored values whose
pattern matches the topic. -/
def MQTTMatcher.iter_match {α : Type} (mt : MQTTMatcher α) (topic : String) :
    List α :=
  (mt.entries.filter (fun e => patternMatches e.1 topic)).map (fun e => e.2)

/-- Embedding of `cachetools.TTLCache`, the type of
`Manager.__response_cache` (constructed with `maxsize=128, ttl=60`).
`entries` is the cache's link list in insertion order, oldest first; each
entry carries its key, value and absolute expiry time `insertion + ttl`.
Times are abstract ticks passed explicitly to each operation (the `timer`
of the real cache). -/
structure TTLCache (V : Type) where
  entries : List (String × V × Nat)
  maxsize : Nat
  ttl : Nat

/-- Find the entry stored under a key. -/
def cacheFind {V : Type} (k : String) : List (String × V × Nat) → Option (V × Nat)
  | [] => Option.none
  | e :: rest => if e.1 = k then some e.2 else cacheFind k rest

/-- `TTLCache.expire(time)`: unlink entries from the head of the link list
while they are expired (`expires < time`); entries behind the first
unexpired one are untouched. -/
def TTLCache.expire {V : Type} (c : TTLCache V) (t : Nat) : TTLCache V :=
  { c with entries := c.entries.dropWhile (fun e => decide (e.2.2 < t)) }

/-- `key in cache`: the key has an entry and it is not expired
(`not (link.expires < time)`). -/
def TTLCache.containsKey {V : Type} (c : TTLCache V) (k : String) (t : Nat) : Bool :=
  match cacheFind k c.entries with
  | some (_, expires) => decide (t ≤ expires)
  | Option.none => false

/-- `cache.pop(key)`: return the unexpired value stored under the key and
remove its entry; `none` when the key is absent or expired (the Python call
raises `KeyError` there — `Manager.request` only pops right after a
successful `in`). -/
def TTLCache.pop {V : Type} (c : TTLCache V) (k : String) (t : Nat) :
    Option (V × TTLCache V) :=
  match cacheFind k c.entries with
  | some (v, expires) =>
    if t ≤ expires then
      some (v, { c with entries := c.entries.filter (fun e => decide (e.1 ≠ k)) })
    else Option.none
  | Option.none => Option.none

/-- `cache[key] = value`: first expire entries at the current time, then —
as `Cache.__setitem__` does — evict from the head of the link list while the
cache would stay over `maxsize`, and finally (re)link the key at the tail
with expiry `time + ttl`. -/
def TTLCache.setitem {V : Type} (c : TTLCache V) (k : String) (v : V) (t : Nat) :
    TTLCache V :=
  if (c.expire t).entries.any (fun e => e.1 = k) then
    { c with entries :=
        (((c.expire t).entries.drop ((c.expire t).entries.length - c.maxsize)).filter
            (fun e => decide (e.1 ≠ k)))
          ++ [(k, v, t + c.ttl)] }
  else
    { c with entries :=
        (c.expire t).entries.drop ((c.expire t).entries.length + 1 - c.maxsize)
          ++ [(k, v, t + c.ttl)] }

/-- The slice of `Manager`'s state the claims are about: the socket matcher
`__sockets_tree`, the callback matcher `__callbacks`, and the response
cache `__response_cache`.  A callback maps the decoded payload text to the
response payload it returns. -/
structure Manager where
  sockets_tree : MQTTMatcher Socket
  callbacks : MQTTMatcher (String → Payload)
  response_cache : TTLCache Payload

/-- `Manager.__init__` without a schema file: empty matchers and
`TTLCache(maxsize=128, ttl=60)`. -/
def Manager.init : Manager :=
  { sockets_tree := ⟨[]⟩
    callbacks := ⟨[]⟩
    response_cache := { entries := [], maxsize := 128, ttl := 60 } }

/-- Embedding of `Manager.get_socket_by_topic`: the first stored socket
whose pattern matches the topic, `none` when no pattern matches
(`StopIteration` caught). -/
def get_socket_by_topic (m : Manager) (topic : String) : Option Socket :=
  (m.sockets_tree.iter_match topic).head?

/-- Embedding of `Manager.get_callback_by_topic`. -/
def get_callback_by_topic (m : Manager) (topic : String) :
    Option (String → Payload) :=
  (m.callbacks.iter_match topic).head?

/-- Embedding of `Manager.register_socket`: store the socket under every
listed topic pattern. -/
def register_socket (m : Manager) (socket : Socket) (topics : List String) :
    Manager :=
  topics.foldl
    (fun acc p => { acc with sockets_tree := acc.sockets_tree.insert p socket }) m

/-- Embedding of `Manager.register_handler` (and the identical
`Manager.subscribe`). -/
def register_handler (m : Manager) (topic : String) (fce : String → Payload) :
    Manager :=
  { m with callbacks := m.callbacks.insert topic fce }

/-- Embedding of `Manager.close`: one `socket.close()` call per value the
sockets matcher yields, in order.  The result lists the sockets in the
order their `close()` is called; a socket appearing twice receives two
`close()` calls. -/
def close_calls (m : Manager) : List Socket :=
  m.sockets_tree.values

/-- The multipart message `Manager.send` builds (manager.py lines 139-146):
`[topic][correlation_id][payload]` when a `message_id` is passed, else
`[topic][payload]`. -/
def encode_frames (topic : String) (message_id : Option String)
    (b_payload : List Nat) : List Frame :=
  match message_id with
  | some mid => [utf8Encode topic, utf8Encode mid, b_payload]
  | Option.none => [utf8Encode topic, b_payload]

/-- Resolution step at the top of `Manager.send`: use the socket argument
when given, else look the topic up. -/
def resolve_socket (m : Manager) (topic : String) (socket : Option Socket) :
    Option Socket :=
  match socket with
  | some s => some s
  | Option.none => get_socket_by_topic m topic

/-- The `enabled_socket_types` check of `Manager.send`: Python's
`if enabled_socket_types and socket_type not in enabled_socket_types` —
an empty list is falsy, so it disables the check. -/
def type_allowed (enabled_socket_types : Option (List SocketType))
    (socket_type : SocketType) : Bool :=
  match enabled_socket_types with
  | Option.none => true
  | some ts => if ts = [] then true else decide (socket_type ∈ ts)

/-- Embedding of `Manager.send` (manager.py lines 125-151).  On success it
returns the socket used and the multipart message handed to
`socket.send_multipart`; every `raise` of the source is an `.error`.  The
out-of-scope transport send itself is represented by returning the frames
(transport-level `zmq.ZMQError` after a successful envelope build is outside
the model). -/
def send (m : Manager) (topic : String) (payload : Payload)
    (enabled_socket_types : Option (List SocketType)) (socket : Option Socket)
    (message_id : Option String) : Except TubeError (Socket × List Frame) :=
  match resolve_socket m topic socket with
  | Option.none => .error .tubeTopicNotConfigured
  | some sock =>
    if type_allowed enabled_socket_types sock.socket_type then
      match format_payload payload with
      | .error e => .error e
      | .ok b_payload => .ok (sock, encode_frames topic message_id b_payload)
    else .error .tubeException

/-- Embedding of `Manager.publish`: `send(topic, payload, [zmq.PUB])`. -/
def publish (m : Manager) (topic : String) (payload : Payload) :
    Except TubeError (Socket × List Frame) :=
  send m topic payload (some [SocketType.PUB]) Option.none Option.none

/-- Decode every frame of a message with strict UTF-8 (the list
comprehension `[it.decode('utf-8') for it in raw_request]`). -/
def decodeAllFrames : List Frame → Option (List String)
  | [] => some []
  | f :: fs =>
    match utf8Decode f with
    | Option.none => Option.none
    | some s => (decodeAllFrames fs).map (s :: ·)

/-- Embedding of `Manager.__process_event` (manager.py lines 153-162): a
received multipart message whose frame count differs from
`size_of_message` raises `TubeMessageError`; otherwise every frame is
UTF-8-decoded (a failing decode raises `UnicodeDecodeError`). -/
def process_event (raw_request : Message) (size_of_message : Nat) :
    Except TubeError (List String) :=
  if raw_request.length ≠ size_of_message then .error .tubeMessageError
  else
    match decodeAllFrames raw_request with
    | some fields => .ok fields
    | Option.none => .error .unicodeDecodeError

/-- The inner `while await socket.poll(1000) != 0` loop of
`Manager.request` (manager.py lines 186-197), run over the messages that
arrive during one outer iteration's polling window.  Each message is
decoded as a 3-frame envelope; a non-matching response is stored in the
cache — the source stores `payload`, the *request's own* payload argument,
not the received `in_payload` — and a matching response ends the wait, the
source again returning its own `payload` argument.  Exceptions propagate
with the cache mutations made so far. -/
def request_window (topic message_id : String) (payload : Payload) (t : Nat) :
    List Message → TTLCache Payload →
      Except TubeError (Option Payload) × TTLCache Payload
  | [], cache => (.ok Option.none, cache)
  | msg :: msgs, cache =>
    match process_event msg 3 with
    | .error e => (.error e, cache)
    | .ok [in_topic, in_message_id, _in_payload] =>
      if in_topic ≠ topic ∨ in_message_id ≠ message_id then
        request_window topic message_id payload t msgs
          (cache.setitem (in_topic ++ "_" ++ in_message_id) payload t)
      else (.ok (some payload), cache)
    | .ok _ => (.error .tubeMessageError, cache)

/-- The outer `for ix in range(0, timeout)` loop of `Manager.request`
(manager.py lines 180-197).  Each iteration first checks the response cache
for the awaited `f'{topic}_{message_id}'` key — popping and returning the
entry when present — and only then drains the messages of that iteration's
polling window.  `windows` holds, per outer iteration, the messages that
arrive on the socket during its polling; exhausting all iterations raises
`TubeMessageTimeout`.  The tick `t` stands for the cache timer during the
request (the 60 s TTL cannot elapse within one bounded wait, so the timer
is not advanced between iterations). -/
def request_loop (topic message_id : String) (payload : Payload) (t : Nat) :
    Nat → List (List Message) → TTLCache Payload →
      Except TubeError Payload × TTLCache Payload
  | 0, _, cache => (.error .tubeMessageTimeout, cache)
  | fuel + 1, windows, cache =>
    match cache.pop (topic ++ "_" ++ message_id) t with
    | some (v, cache') => (.ok v, cache')
    | Option.none =>
      match request_window topic message_id payload t (windows.headD []) cache with
      | (.error e, cache') => (.error e, cache')
      | (.ok (some v), cache') => (.ok v, cache')
      | (.ok Option.none, cache') =>
        request_loop topic message_id payload t fuel windows.tail cache'

/-- The outcome of one `Manager.request` call: the envelope frames sent (or
`none` when `send` raised), the value returned or exception raised, and the
final response cache. -/
structure RequestOutcome where
  sent : Option (List Frame)
  result : Except TubeError Payload
  cache : TTLCache Payload

/-- Embedding of `Manager.request` (manager.py lines 173-199): resolve the
socket, send the 3-frame request envelope restricted to `zmq.REQ` sockets,
then wait in `request_loop`.  The correlation id the source derives from
`datetime.datetime.now().strftime('%s%f')` is passed in as `message_id`;
`t` is the cache timer tick and `windows` the inbound messages per polling
window. -/
def request (m : Manager) (topic : String) (payload : Payload) (timeout : Nat)
    (message_id : String) (t : Nat) (windows : List (List Message)) :
    RequestOutcome :=
  match send m topic payload (some [SocketType.REQ]) (get_socket_by_topic m topic)
      (some message_id) with
  | .error e => { sent := Option.none, result := .error e, cache := m.response_cache }
  | .ok (_, frames) =>
    { sent := some frames
      result := (request_loop topic message_id payload t timeout windows
        m.response_cache).1
      cache := (request_loop topic message_id payload t timeout windows
        m.response_cache).2 }

/-- One dispatch of `Manager.loop` (manager.py lines 212-225) for a ready
socket.  `zmq.SUB` branch: the source calls `self.__process_event(socket, 2)`
*without* `await`, then tuple-unpacks the resulting coroutine object, which
raises `TypeError` before any frame is examined.  `zmq.REP` branch: decode a
3-frame envelope (`TubeMessageError` on a frame-count mismatch propagates —
there is no `try`/`except` in the loop), look up the callback (`await`ing a
missing callback `None` raises `TypeError`), and send the handler's return
value back with the inbound correlation id.  On success the reply sent (if
any) is returned. -/
def loop_step (m : Manager) (socket : Socket) (msg : Message) :
    Except TubeError (Option (Socket × List Frame)) :=
  match socket.socket_type with
  | .SUB => .error .typeError
  | .REP =>
    match process_event msg 3 with
    | .error e => .error e
    | .ok [topic, message_id, payload] =>
      match get_callback_by_topic m topic with
      | Option.none => .error .typeError
      | some callback =>
        match send m topic (callback payload) Option.none (some socket)
            (some message_id) with
        | .error e => .error e
        | .ok reply => .ok (some reply)
    | .ok _ => .error .tubeMessageError
  | _ => .ok Option.none

/-- The `while True` dispatch loop of `Manager.loop`, run over a finite
trace of ready events (socket, received message).  The loop body has no
exception handler, so the first exception of any dispatch terminates the
loop: the events behind it are never served and no reply is produced for
them.  The first component collects the replies sent, the second is the
exception that killed the loop, if any. -/
def loop_run (m : Manager) :
    List (Socket × Message) → List (Socket × List Frame) × Option TubeError
  | [] => ([], Option.none)
  | (socket, msg) :: rest =>
    match loop_step m socket msg with
    | .error e => ([], some e)
    | .ok reply =>
      let res := loop_run m rest
      (reply.toList ++ res.1, res.2)

/-! ### Helper lemmas -/

theorem digitChar_toNat (d : Nat) (h : d < 10) : (digitChar d).toNat = 48 + d := by
  unfold digitChar Char.ofNat
  rw [dif_pos (Or.inl (by omega))]
  rfl

theorem utf8EncodeCps_ascii (cps : List Nat) (h : ∀ n ∈ cps, n < 0x80) :
    ∀ b ∈ utf8EncodeCps cps, b < 0x80 := by
  induction cps with
  | nil => simp [utf8EncodeCps]
  | cons n ns ih =>
    intro b hb
    have hn : n < 0x80 := h n (by simp)
    rw [utf8EncodeCps, utf8EncodeCp, if_pos hn] at hb
    rcases List.mem_append.mp hb with hb | hb
    · simp at hb; omega
    · exact ih (fun m hm => h m (by simp [hm])) b hb

theorem utf8Encode_ascii (s : String) (h : ∀ c ∈ s.data, c.toNat < 0x80) :
    ∀ b ∈ utf8Encode s, b < 0x80 := by
  unfold utf8Encode
  refine utf8EncodeCps_ascii _ ?_
  intro n hn
  rcases List.mem_map.mp hn with ⟨c, hc, rfl⟩
  exact h c hc

theorem pyIntStr_ascii (n : Int) : ∀ c ∈ (pyIntStr n).data, c.toNat < 0x80 := by
  have hnat : ∀ m : Nat, ∀ c ∈ (pyNatStr m).data, c.toNat < 0x80 := by
    intro m c hc
    rcases List.mem_map.mp hc with ⟨d, hd, rfl⟩
    have := natDigits_lt_ten m d hd
    rw [digitChar_toNat d this]
    omega
  cases n with
  | ofNat m => exact hnat m
  | negSucc m =>
    intro c hc
    simp only [pyIntStr] at hc
    rcases List.mem_append.mp hc with hc | hc
    · simp at hc
      rw [hc]
      decide
    · exact hnat (m + 1) c hc

theorem cacheFind_filter_ne {V : Type} (k : String) (l : List (String × V × Nat)) :
    cacheFind k (l.filter (fun e => decide (e.1 ≠ k))) = Option.none := by
  induction l with
  | nil => rfl
  | cons e rest ih =>
    rw [List.filter_cons]
    by_cases he : e.1 = k
    · rw [if_neg (by simp [he])]
      exact ih
    · rw [if_pos (by simp [he])]
      rw [cacheFind, if_neg he]
      exact ih

theorem containsKey_of_pop {V : Type} (c : TTLCache V) (k : String) (t : Nat)
    (v : V) (c' : TTLCache V) (h : c.pop k t = some (v, c')) :
    c'.containsKey k t = false := by
  unfold TTLCache.pop at h
  cases hf : cacheFind k c.entries with
  | none => rw [hf] at h; exact absurd h (by simp)
  | some ve =>
    obtain ⟨v0, exp⟩ := ve
    rw [hf] at h
    dsimp only at h
    by_cases ht : t ≤ exp
    · rw [if_pos ht] at h
      have hc' : c' = { c with entries := c.entries.filter (fun e => decide (e.1 ≠ k)) } := by
        injection h with h2
        exact (congrArg Prod.snd h2).symm
      rw [hc']
      unfold TTLCache.containsKey
      rw [cacheFind_filter_ne]
    · rw [if_neg ht] at h
      exact absurd h (by simp)

theorem length_filter_lt_of_mem {α : Type} (p : α → Bool) (l : List α)
    (h : ∃ x ∈ l, ¬ p x) : (l.filter p).length < l.length := by
  induction l with
  | nil => simp at h
  | cons a rest ih =>
    rcases h with ⟨x, hx, hpx⟩
    rcases List.mem_cons.mp hx with rfl | hx
    · rw [List.filter_cons, if_neg (by simpa using hpx)]
      have := List.length_filter_le p rest
      simp only [List.length_cons]
      omega
    · by_cases hpa : p a
      · rw [List.filter_cons, if_pos (by simpa using hpa)]
        have := ih ⟨x, hx, hpx⟩
        simp only [List.length_cons]
        omega
      · rw [List.filter_cons, if_neg (by simpa using hpa)]
        have := List.length_filter_le p rest
        simp only [List.length_cons]
        omega

/-! ### Sample objects used by concrete evaluations and witnesses -/

/-- A manager with a single `zmq.REQ` socket registered under the one topic
pattern `top`. -/
def mReq : Manager := register_socket Manager.init ⟨"r1", SocketType.REQ⟩ ["top"]

/-- A `zmq.REP` socket. -/
def repSock : Socket := ⟨"rep1", SocketType.REP⟩

/-- A manager with `repSock` registered under the pattern `req/a` together
with a handler for it that answers `resp-` followed by the request text. -/
def mRep : Manager :=
  register_handler (register_socket Manager.init repSock ["req/a"]) "req/a"
    (fun p => Payload.str ("resp-" ++ p))

/-! ### Claim theorems -/

/-- Claim C1 (code bug).  The claim says `Manager.request` returns the
payload carried by the received matching response envelope.  The code
instead returns the variable `payload` — its *own request payload
argument* — both when a matching response arrives (line 197) and when it
caches a non-matching response for another waiter (lines 194-195); the
received `in_payload` is dropped.  Concretely: a request with payload
`req` and correlation id `42` on topic `top` receives a non-matching
response `(top, 99, other)` followed by its own response `(top, 42, resp)`;
the call returns `req` instead of `resp`, and the cache entry made for the
non-matching response also stores `req` instead of `other`. -/
theorem request_returns_own_payload_bug :
    (request mReq "top" (.str "req") 30 "42" 0
        [[[utf8Encode "top", utf8Encode "99", utf8Encode "other"],
          [utf8Encode "top", utf8Encode "42", utf8Encode "resp"]]]).result
      = .ok (.str "req")
    ∧ (request mReq "top" (.str "req") 30 "42" 0
        [[[utf8Encode "top", utf8Encode "99", utf8Encode "other"],
          [utf8Encode "top", utf8Encode "42", utf8Encode "resp"]]]).cache.entries
      = [("top_99", .str "req", 60)]
    ∧ Payload.str "req" ≠ Payload.str "resp" :=
  ⟨rfl, rfl, by decide⟩

/-- Claim C2 (code bug).  The claim (and spec sections 4.5 and 7) says a
malformed inbound message is logged and dropped and the dispatch loop keeps
serving; `Manager.loop` has no `try`/`except`, so the `TubeMessageError`
raised by `Manager.__process_event` for a wrong frame count propagates and
terminates the loop.  Concretely: a 2-frame message on the `zmq.REP`
socket (which requires 3 frames) kills the loop and the well-formed
request queued behind it is never answered — while the same well-formed
request alone is served with a reply. -/
theorem loop_dies_on_malformed_message_bug :
    loop_run mRep
        [(repSock, [utf8Encode "req/a", utf8Encode "x"]),
         (repSock, [utf8Encode "req/a", utf8Encode "7", utf8Encode "hi"])]
      = ([], some .tubeMessageError)
    ∧ loop_run mRep [(repSock, [utf8Encode "req/a", utf8Encode "7", utf8Encode "hi"])]
      = ([(repSock, [utf8Encode "req/a", utf8Encode "7", utf8Encode "resp-hi"])],
         Option.none) :=
  ⟨rfl, rfl⟩

/-- Claim C3, counterexample.  Encoding is not injective across the
supported payload types: the `int` payload `5` and the `str` payload `"5"`
produce byte-identical envelopes, so no decoding of the produced frames can
reproduce the original payload for both — and the receive side
(`Manager.__process_event`) in fact yields the *text* `"5"` for either.
Hence decode∘encode does not reproduce the original `(topic,
correlation_id, payload)` for every supported payload value. -/
theorem encode_not_injective_cex :
    send mReq "top" (.intP 5) Option.none Option.none (some "1")
      = send mReq "top" (.str "5") Option.none Option.none (some "1")
    ∧ Payload.intP 5 ≠ Payload.str "5"
    ∧ process_event (encode_frames "top" (some "1") (utf8Encode (pyIntStr 5))) 3
      = .ok ["top", "1", "5"] :=
  ⟨rfl, by decide, by rfl⟩

/-- Claim C3, amended.  Decoding the frames produced by encoding reproduces
the topic and the correlation id exactly, for both the 3-frame and the
2-frame layout, and reproduces the payload *as text*: the receive side
yields the strict UTF-8 decoding of the coerced payload bytes (so a text
payload is reproduced exactly — second conjunct — an int/float payload
comes back as its decimal text, an absent payload as the empty string, and
a bytes payload only if its bytes are valid UTF-8). -/
theorem roundtrip_amended :
    (∀ (topic cid : String) (pl : Payload) (pb : List Nat) (ps : String),
        format_payload pl = .ok pb → utf8Decode pb = some ps →
        process_event (encode_frames topic (some cid) pb) 3 = .ok [topic, cid, ps] ∧
        process_event (encode_frames topic Option.none pb) 2 = .ok [topic, ps]) ∧
    (∀ s : String, utf8Decode (utf8Encode s) = some s) := by
  constructor
  · intro topic cid pl pb ps _hpl hps
    constructor
    · unfold process_event encode_frames
      rw [if_neg (by simp)]
      rw [show decodeAllFrames [utf8Encode topic, utf8Encode cid, pb]
            = some [topic, cid, ps] by
          simp [decodeAllFrames, utf8Decode_utf8Encode, hps]]
    · unfold process_event encode_frames
      rw [if_neg (by simp)]
      rw [show decodeAllFrames [utf8Encode topic, pb] = some [topic, ps] by
          simp [decodeAllFrames, utf8Decode_utf8Encode, hps]]
  · exact utf8Decode_utf8Encode

/-- Witness for `roundtrip_amended` at topic `t`, correlation id `1` and
the text payload `a`. -/
theorem roundtrip_amended_witness :
    format_payload (.str "a") = .ok [97] ∧ utf8Decode [97] = some "a" ∧
    (process_event (encode_frames "t" (some "1") [97]) 3 = .ok ["t", "1", "a"] ∧
     process_event (encode_frames "t" Option.none [97]) 2 = .ok ["t", "a"]) :=
  ⟨by rfl, by rfl, roundtrip_amended.1 "t" "1" (.str "a") [97] "a" (by rfl) (by rfl)⟩

/-- Claim C4, counterexample.  A Python `bool` is none of the five claimed
payload categories (text, bytes, int, float, absent) read as distinct
types, yet `Manager.__format_payload` does not reject it: being an `int`
subclass it is caught by `isinstance(payload, (int, float))` and silently
stringified via `str` to `b'True'` — which is also not "the ASCII decimal
text of the number" (that would be `b'1'`).  Either reading falsifies the
claim at the concrete payload `True`. -/
theorem bool_payload_stringified_cex :
    format_payload (.boolP true) = .ok [84, 114, 117, 101]
    ∧ utf8Encode "True" = [84, 114, 117, 101]
    ∧ utf8Encode (pyIntStr 1) = [49]
    ∧ ([84, 114, 117, 101] : List Nat) ≠ [49] :=
  ⟨rfl, rfl, rfl, by decide⟩

/-- Claim C4, amended.  Payload coercion on send is exactly: text → its
UTF-8 bytes; bytes/bytearray → unchanged; int → the ASCII decimal text of
the number (every byte is ASCII, and `pyNatStr`/`pyIntStr` is decimal by
`natDigits_foldl`); float → the ASCII text `str` renders it to; `None` →
the empty byte string; any other *non-int* object → an immediately raised
`TypeError` (also raised out of `send` before any frames are built) —
*except* that a Python `bool`, being an `int`, is accepted and coerced to
`b'True'`/`b'False'` via `str` rather than rejected or rendered as decimal
digits. -/
theorem payload_coercion_amended :
    (∀ s, format_payload (.str s) = .ok (utf8Encode s)) ∧
    (∀ b, format_payload (.bytes b) = .ok b) ∧
    (∀ n, format_payload (.intP n) = .ok (utf8Encode (pyIntStr n))) ∧
    (∀ r, format_payload (.floatP r) = .ok (utf8Encode r)) ∧
    format_payload .none = .ok [] ∧
    format_payload .other = .error .typeError ∧
    (∀ b, format_payload (.boolP b)
      = .ok (utf8Encode (if b then "True" else "False"))) ∧
    (∀ n : Int, ∀ byte ∈ utf8Encode (pyIntStr n), byte < 0x80) ∧
    (∀ (m : Manager) (topic : String) (mid : Option String) (s : Socket),
        get_socket_by_topic m topic = some s →
        send m topic .other Option.none Option.none mid = .error .typeError) := by
  refine ⟨fun _ => rfl, fun _ => rfl, fun _ => rfl, fun _ => rfl, rfl, rfl,
    fun _ => rfl, ?_, ?_⟩
  · intro n
    exact utf8Encode_ascii (pyIntStr n) (pyIntStr_ascii n)
  · intro m topic mid s hs
    unfold send resolve_socket
    rw [hs]
    rfl

/-- Witness for `payload_coercion_amended`: the `TypeError` raised through
`send` on the concrete manager `mReq`, and the ASCII bound at `n = 7`. -/
theorem payload_coercion_amended_witness :
    get_socket_by_topic mReq "top" = some ⟨"r1", SocketType.REQ⟩ ∧
    send mReq "top" .other Option.none Option.none (some "1")
      = .error .typeError ∧
    (55 ∈ utf8Encode (pyIntStr 7) ∧ 55 < 0x80) :=
  ⟨by rfl,
   payload_coercion_amended.2.2.2.2.2.2.2.2 mReq "top" (some "1")
     ⟨"r1", SocketType.REQ⟩ (by rfl),
   ⟨by decide, payload_coercion_amended.2.2.2.2.2.2.2.1 7 55 (by decide)⟩⟩

/-- Claim C5 (confirmed).  Whatever socket a send resolves to and however
it was restricted, a successful `Manager.send` without a `message_id` puts
exactly the two frames `[topic][payload]` on the wire and with a
`message_id` exactly the three frames `[topic][correlation_id][payload]`,
in that order. -/
theorem send_frame_layout :
    ∀ (m : Manager) (topic : String) (payload : Payload)
      (est : Option (List SocketType)) (sk : Option Socket) (mid : Option String)
      (b : List Nat) (s : Socket) (fr : List Frame),
      format_payload payload = .ok b →
      send m topic payload est sk mid = .ok (s, fr) →
      fr = match mid with
           | some mi => [utf8Encode topic, utf8Encode mi, b]
           | Option.none => [utf8Encode topic, b] := by
  intro m topic payload est sk mid b s fr hb hs
  unfold send at hs
  cases hres : resolve_socket m topic sk with
  | none => rw [hres] at hs; exact absurd hs (by simp)
  | some sock =>
    rw [hres] at hs
    dsimp only at hs
    by_cases ht : type_allowed est sock.socket_type = true
    · rw [if_pos ht, hb] at hs
      dsimp only at hs
      injection hs with h2
      have hfr : fr = encode_frames topic mid b := (congrArg Prod.snd h2).symm
      rw [hfr]
      cases mid <;> rfl
    · rw [if_neg ht] at hs
      exact absurd hs (by simp)

/-- Witness for `send_frame_layout`: a concrete send of an empty payload on
topic `t` with correlation id `1`. -/
theorem send_frame_layout_witness :
    format_payload Payload.none = .ok [] ∧
    send Manager.init "t" Payload.none Option.none (some ⟨"x", SocketType.PUB⟩)
        (some "1")
      = .ok (⟨"x", SocketType.PUB⟩, [[116], [49], []]) ∧
    ([[116], [49], []] : List Frame) = [utf8Encode "t", utf8Encode "1", []] :=
  ⟨by rfl, by rfl,
   send_frame_layout Manager.init "t" Payload.none Option.none
     (some ⟨"x", SocketType.PUB⟩) (some "1") [] ⟨"x", SocketType.PUB⟩
     [[116], [49], []] (by rfl) (by rfl)⟩

/-- Claim C6 (confirmed).  When no registered pattern matches the topic,
`Manager.send` — and `Manager.publish` and `Manager.request`, which go
through it — raises `TubeTopicNotConfigured` synchronously: no frames are
produced (`send` has no `.ok` result, `request.sent` is `none`), the cache
is untouched, and nothing is silently dropped. -/
theorem unregistered_topic_raises :
    ∀ (m : Manager) (topic : String) (payload : Payload)
      (est : Option (List SocketType)) (mid : Option String)
      (message_id : String) (timeout t : Nat) (windows : List (List Message)),
      get_socket_by_topic m topic = Option.none →
      send m topic payload est Option.none mid = .error .tubeTopicNotConfigured ∧
      publish m topic payload = .error .tubeTopicNotConfigured ∧
      request m topic payload timeout message_id t windows
        = { sent := Option.none, result := .error .tubeTopicNotConfigured,
            cache := m.response_cache } := by
  intro m topic payload est mid message_id timeout t windows hnone
  have hsend : ∀ (est' : Option (List SocketType)) (mid' : Option String),
      send m topic payload est' Option.none mid'
        = .error .tubeTopicNotConfigured := by
    intro est' mid'
    unfold send resolve_socket
    rw [hnone]
  refine ⟨hsend est mid, hsend (some [SocketType.PUB]) Option.none, ?_⟩
  unfold request
  rw [hnone, hsend (some [SocketType.REQ]) (some message_id)]

/-- Witness for `unregistered_topic_raises` on the freshly initialised
manager, which has no sockets at all. -/
theorem unregistered_topic_raises_witness :
    get_socket_by_topic Manager.init "t" = Option.none ∧
    (send Manager.init "t" (.str "x") Option.none Option.none Option.none
        = .error .tubeTopicNotConfigured ∧
     publish Manager.init "t" (.str "x") = .error .tubeTopicNotConfigured ∧
     request Manager.init "t" (.str "x") 3 "1" 0 []
        = { sent := Option.none, result := .error .tubeTopicNotConfigured,
            cache := Manager.init.response_cache }) :=
  ⟨by rfl,
   unregistered_topic_raises Manager.init "t" (.str "x") Option.none Option.none
     "1" 3 0 [] (by rfl)⟩

/-- Claim C7 (confirmed).  Every iteration of `Manager.request`'s wait loop
with fuel left first consults the response cache for the awaited
`f'{topic}_{message_id}'` key; on a hit the entry is popped and returned at
once — the result does not depend on the polling windows, so the endpoint
is never waited on — and the returned cache no longer contains the key, so
a cached response is delivered to at most one waiter. -/
theorem cache_hit_returned_and_removed :
    ∀ (topic message_id : String) (payload v : Payload) (t fuel : Nat)
      (windows : List (List Message)) (cache cache' : TTLCache Payload),
      cache.pop (topic ++ "_" ++ message_id) t = some (v, cache') →
      request_loop topic message_id payload t (fuel + 1) windows cache
        = (.ok v, cache') ∧
      cache'.containsKey (topic ++ "_" ++ message_id) t = false := by
  intro topic message_id payload v t fuel windows cache cache' hpop
  refine ⟨?_, containsKey_of_pop cache _ t v cache' hpop⟩
  rw [request_loop, hpop]

/-- Witness for `cache_hit_returned_and_removed` on a one-entry cache. -/
theorem cache_hit_returned_and_removed_witness :
    TTLCache.pop ⟨[("a_1", Payload.str "v", 100)], 128, 60⟩ ("a" ++ "_" ++ "1") 0
      = some (Payload.str "v", (⟨[], 128, 60⟩ : TTLCache Payload)) ∧
    (request_loop "a" "1" (.str "p") 0 1 [] ⟨[("a_1", Payload.str "v", 100)], 128, 60⟩
        = (.ok (Payload.str "v"), (⟨[], 128, 60⟩ : TTLCache Payload)) ∧
     TTLCache.containsKey (⟨[], 128, 60⟩ : TTLCache Payload) ("a" ++ "_" ++ "1") 0
        = false) :=
  ⟨by rfl,
   cache_hit_returned_and_removed "a" "1" (.str "p") (Payload.str "v") 0 0 []
     ⟨[("a_1", Payload.str "v", 100)], 128, 60⟩ ⟨[], 128, 60⟩ (by rfl)⟩

/-- Claim C8 (confirmed).  `Manager.__init__` configures the response cache
with `maxsize=128, ttl=60` and it starts empty; expiry and pop only shrink
the link list; an insertion never leaves more than `maxsize` entries (so a
cache that respects the bound keeps respecting it); and inserting a fresh
key into a full cache always evicts the least-recently-inserted entry — at
every timer value `t`, i.e. regardless of whether any entry has expired
(an expired prefix is dropped first, and it contains the head; otherwise
the eviction loop pops the head). -/
theorem ttl_cache_bound_and_eviction :
    (Manager.init.response_cache.maxsize = 128 ∧
     Manager.init.response_cache.ttl = 60 ∧
     Manager.init.response_cache.entries = []) ∧
    (∀ (V : Type) (c : TTLCache V) (t : Nat),
        (c.expire t).entries.length ≤ c.entries.length) ∧
    (∀ (V : Type) (c : TTLCache V) (k : String) (t : Nat) (v : V)
        (c' : TTLCache V),
        c.pop k t = some (v, c') → c'.entries.length ≤ c.entries.length) ∧
    (∀ (V : Type) (c : TTLCache V) (k : String) (v : V) (t : Nat),
        1 ≤ c.maxsize → c.entries.length ≤ c.maxsize →
        (c.setitem k v t).entries.length ≤ c.maxsize) ∧
    (∀ (V : Type) (c : TTLCache V) (k : String) (v : V) (t : Nat)
        (hd : String × V × Nat) (tl : List (String × V × Nat)),
        c.entries = hd :: tl → c.entries.length = c.maxsize →
        (c.entries.map (fun e => e.1)).Nodup →
        (∀ e ∈ c.entries, e.1 ≠ k) →
        hd.1 ∉ (c.setitem k v t).entries.map (fun e => e.1)) := by
  refine ⟨⟨rfl, rfl, rfl⟩, ?_, ?_, ?_, ?_⟩
  · intro V c t
    exact ((List.dropWhile_suffix _).sublist).length_le
  · intro V c k t v c' h
    unfold TTLCache.pop at h
    cases hf : cacheFind k c.entries with
    | none => rw [hf] at h; exact absurd h (by simp)
    | some ve =>
      obtain ⟨v0, exp⟩ := ve
      rw [hf] at h
      dsimp only at h
      by_cases ht : t ≤ exp
      · rw [if_pos ht] at h
        have hc' : c' = { c with
            entries := c.entries.filter (fun e => decide (e.1 ≠ k)) } := by
          injection h with h2
          exact (congrArg Prod.snd h2).symm
        rw [hc']
        exact List.length_filter_le _ _
      · rw [if_neg ht] at h
        exact absurd h (by simp)
  · intro V c k v t h1 h2
    have hexp : (c.expire t).entries.length ≤ c.entries.length :=
      ((List.dropWhile_suffix _).sublist).length_le
    unfold TTLCache.setitem
    by_cases hany : (c.expire t).entries.any (fun e => decide (e.1 = k)) = true
    · rw [if_pos hany]
      have hk : ∃ e ∈ (c.expire t).entries, decide (e.1 = k) = true := by
        simpa using List.any_eq_true.mp hany
      have h0 : (c.expire t).entries.length - c.maxsize = 0 := by omega
      rw [h0, List.drop_zero]
      have hlt : ((c.expire t).entries.filter (fun e => decide (e.1 ≠ k))).length
          < (c.expire t).entries.length := by
        refine length_filter_lt_of_mem _ _ ?_
        rcases hk with ⟨e, he, heq⟩
        exact ⟨e, he, by simp at heq ⊢; exact heq⟩
      simp only [List.length_append, List.length_cons, List.length_nil]
      omega
    · rw [if_neg hany]
      simp only [List.length_append, List.length_drop, List.length_cons,
        List.length_nil]
      omega
  · intro V c k v t hd tl hcons hfull hnodup hfresh
    have hkhd : hd.1 ≠ k := hfresh hd (by rw [hcons]; exact List.mem_cons_self hd tl)
    have hany : (c.expire t).entries.any (fun e => decide (e.1 = k)) = false := by
      rw [List.any_eq_false]
      intro e he
      have hemem : e ∈ c.entries :=
        (List.dropWhile_suffix _).sublist.subset he
      simp only [decide_eq_true_eq]
      exact hfresh e hemem
    have hnotl : hd.1 ∉ tl.map (fun e => e.1) := by
      rw [hcons] at hnodup
      exact (List.nodup_cons.mp (by simpa using hnodup)).1
    unfold TTLCache.setitem
    rw [if_neg (by simp [hany])]
    intro hmem
    rw [List.map_append, List.mem_append] at hmem
    rcases hmem with hmem | hmem
    · rcases List.mem_map.mp hmem with ⟨e, he, heq⟩
      have hewhole : (c.expire t).entries = (hd :: tl).dropWhile
          (fun e => decide (e.2.2 < t)) := by
        unfold TTLCache.expire
        rw [hcons]
      have hetl : e ∈ tl := by
        by_cases hp : decide (hd.2.2 < t) = true
        · have h1 : e ∈ (c.expire t).entries := List.drop_subset _ _ he
          rw [hewhole, List.dropWhile_cons, if_pos hp] at h1
          exact (List.dropWhile_suffix _).sublist.subset h1
        · rw [hewhole, List.dropWhile_cons, if_neg hp] at he
          have hlen : (hd :: tl).length = c.maxsize := by
            rw [← hcons]; exact hfull
          have hidx : (hd :: tl).length + 1 - c.maxsize = 1 := by omega
          rw [hidx, List.drop_one] at he
          simpa using he
      exact hnotl (heq ▸ List.mem_map_of_mem (fun e => e.1) hetl)
    · simp only [List.map_cons, List.map_nil, List.mem_singleton] at hmem
      exact hkhd hmem

/-- Witness for `ttl_cache_bound_and_eviction`: a full two-entry cache
receiving a third key keeps its bound and evicts the oldest entry. -/
theorem ttl_cache_bound_and_eviction_witness :
    (1 ≤ 2 ∧ ([("a", Payload.none, 100), ("b", Payload.none, 101)].length ≤ 2)) ∧
    ((TTLCache.setitem ⟨[("a", Payload.none, 100), ("b", Payload.none, 101)], 2, 60⟩
        "c" Payload.none 0).entries.length ≤ 2) ∧
    ("a" ∉ (TTLCache.setitem
        ⟨[("a", Payload.none, 100), ("b", Payload.none, 101)], 2, 60⟩
        "c" Payload.none 0).entries.map (fun e => e.1)) :=
  ⟨⟨by decide, by decide⟩,
   ttl_cache_bound_and_eviction.2.2.2.1 Payload
     ⟨[("a", Payload.none, 100), ("b", Payload.none, 101)], 2, 60⟩
     "c" Payload.none 0 (by decide) (by decide),
   ttl_cache_bound_and_eviction.2.2.2.2 Payload
     ⟨[("a", Payload.none, 100), ("b", Payload.none, 101)], 2, 60⟩
     "c" Payload.none 0 ("a", Payload.none, 100) [("b", Payload.none, 101)]
     rfl rfl (by decide) (by decide)⟩

/-- Claim C9, counterexample.  A socket registered under the two patterns
`a` and `b` is stored once per pattern, so `Manager.close`, which calls
`close()` on every value the sockets matcher yields, closes that one
endpoint twice — not exactly once. -/
theorem close_called_per_pattern_cex :
    close_calls (register_socket Manager.init ⟨"s1", SocketType.REQ⟩ ["a", "b"])
      = [⟨"s1", SocketType.REQ⟩, ⟨"s1", SocketType.REQ⟩]
    ∧ (close_calls (register_socket Manager.init ⟨"s1", SocketType.REQ⟩
        ["a", "b"])).count ⟨"s1", SocketType.REQ⟩ = 2 :=
  ⟨rfl, by decide⟩

theorem register_entries_eq (m : Manager) (s : Socket) (ps : List String)
    (hnodup : ps.Nodup)
    (hfresh : ∀ p ∈ ps, ∀ e ∈ m.sockets_tree.entries, e.1 ≠ p) :
    (register_socket m s ps).sockets_tree.entries
      = m.sockets_tree.entries ++ ps.map (fun p => (p, s)) := by
  induction ps generalizing m with
  | nil => simp [register_socket]
  | cons p ps ih =>
    have hstep : register_socket m s (p :: ps)
        = register_socket { m with sockets_tree := m.sockets_tree.insert p s } s ps :=
      rfl
    have hins : (m.sockets_tree.insert p s).entries
        = m.sockets_tree.entries ++ [(p, s)] := by
      unfold MQTTMatcher.insert
      rw [if_neg ?hno]
      case hno =>
        simp only [List.any_eq_true, not_exists, not_and]
        intro e he
        simp only [decide_eq_true_eq]
        exact hfresh p (by simp) e he
    rw [hstep, ih { m with sockets_tree := m.sockets_tree.insert p s }
      (List.nodup_cons.mp hnodup).2 ?fresh]
    case fresh =>
      intro q hq e he
      rw [show ({ m with sockets_tree := m.sockets_tree.insert p s } : Manager).sockets_tree
            = m.sockets_tree.insert p s from rfl, hins] at he
      rcases List.mem_append.mp he with he | he
      · exact hfresh q (by simp [hq]) e he
      · simp only [List.mem_singleton] at he
        subst he
        intro hpq
        rw [← hpq] at hq
        exact (List.nodup_cons.mp hnodup).1 hq
    rw [show ({ m with sockets_tree := m.sockets_tree.insert p s } : Manager).sockets_tree
          = m.sockets_tree.insert p s from rfl, hins]
    simp [List.append_assoc]

/-- Claim C9, amended.  Teardown closes every registered endpoint once per
topic pattern it is registered under: registering a socket under `n` fresh
distinct patterns adds exactly `n` `close()` calls for it, and as soon as
at least one pattern is registered the endpoint is closed at least once
(none is left open).  An endpoint registered under exactly one pattern is
therefore closed exactly once, but one registered under several patterns is
closed several times. -/
theorem close_per_pattern_amended :
    ∀ (m : Manager) (s : Socket) (ps : List String),
      ps.Nodup →
      (∀ p ∈ ps, ∀ e ∈ m.sockets_tree.entries, e.1 ≠ p) →
      (close_calls (register_socket m s ps)).count s
        = (close_calls m).count s + ps.length ∧
      (ps ≠ [] → s ∈ close_calls (register_socket m s ps)) := by
  intro m s ps h1 h2
  have hvals : close_calls (register_socket m s ps)
      = close_calls m ++ List.replicate ps.length s := by
    unfold close_calls MQTTMatcher.values
    rw [register_entries_eq m s ps h1 h2, List.map_append, List.map_map]
    congr 1
    exact List.map_const' ps s
  constructor
  · rw [hvals, List.count_append, List.count_replicate_self]
  · intro hne
    rw [hvals]
    refine List.mem_append.mpr (Or.inr ?_)
    rw [List.mem_replicate]
    exact ⟨fun h0 => hne (List.length_eq_zero.mp h0), rfl⟩

/-- Witness for `close_per_pattern_amended`: one socket, one fresh
pattern — closed exactly once. -/
theorem close_per_pattern_amended_witness :
    (["a"].Nodup ∧ (["a"] : List String) ≠ []) ∧
    ((close_calls (register_socket Manager.init ⟨"s1", SocketType.REQ⟩ ["a"])).count
        ⟨"s1", SocketType.REQ⟩
      = (close_calls Manager.init).count ⟨"s1", SocketType.REQ⟩ + 1 ∧
     (["a"] ≠ [] → (⟨"s1", SocketType.REQ⟩ : Socket)
        ∈ close_calls (register_socket Manager.init ⟨"s1", SocketType.REQ⟩ ["a"]))) :=
  ⟨⟨by decide, by decide⟩,
   close_per_pattern_amended Manager.init ⟨"s1", SocketType.REQ⟩ ["a"]
     (by decide) (by intro p hp e he; simp [Manager.init] at he)⟩

/-- Claim C10 (confirmed).  A `Manager.request` with `timeout=0` on a topic
whose send succeeds still puts the 3-frame request envelope on the wire
(`sent` holds the frames `send` produced) and then raises
`TubeMessageTimeout` immediately: `range(0, 0)` is empty, so the wait loop
body never runs — the response cache is returned untouched and the result
is the same for every inbound-message trace, i.e. the cache is never
consulted and the endpoint never polled. -/
theorem request_timeout_zero :
    ∀ (m : Manager) (topic : String) (payload : Payload) (message_id : String)
      (t : Nat) (windows : List (List Message)) (s : Socket) (frames : List Frame),
      send m topic payload (some [SocketType.REQ]) (get_socket_by_topic m topic)
          (some message_id) = .ok (s, frames) →
      request m topic payload 0 message_id t windows
        = { sent := some frames, result := .error .tubeMessageTimeout,
            cache := m.response_cache } := by
  intro m topic payload message_id t windows s frames hsend
  unfold request
  rw [hsend]
  rfl

/-- Witness for `request_timeout_zero` on the concrete manager `mReq`, with
a pending inbound message that is never read. -/
theorem request_timeout_zero_witness :
    send mReq "top" (.str "hi") (some [SocketType.REQ])
        (get_socket_by_topic mReq "top") (some "42")
      = .ok (⟨"r1", SocketType.REQ⟩,
          [utf8Encode "top", utf8Encode "42", utf8Encode "hi"]) ∧
    request mReq "top" (.str "hi") 0 "42" 5
        [[[utf8Encode "top", utf8Encode "42", utf8Encode "resp"]]]
      = { sent := some [utf8Encode "top", utf8Encode "42", utf8Encode "hi"],
          result := .error .tubeMessageTimeout,
          cache := mReq.response_cache } :=
  ⟨by rfl,
   request_timeout_zero mReq "top" (.str "hi") "42" 5
     [[[utf8Encode "top", utf8Encode "42", utf8Encode "resp"]]]
     ⟨"r1", SocketType.REQ⟩ [utf8Encode "top", utf8Encode "42", utf8Encode "hi"]
     (by rfl)⟩

end Tubes
